import Mathlib

/-!
Verification of the batched LLM annotation engine (`ask_llm` DataFusion UDF).

Shallow embedding of the Rust sources:
  * `src/llm_udf.rs`    — the `ask_llm` UDF: dispatcher (`invoke_with_args`),
    per-batch processing (`process_chunk`), reply parser (`parse_llm_response`);
  * `src/ollama_utils.rs` — the remote (Ollama) backend reply extraction;
  * `src/llm_utils.rs`  — the local llama.cpp backend generation loop.

Strings are modelled as `List Char` (Rust `String`/`&str` are UTF-8 text; we
work at the level of Unicode scalar values, which is the level at which all
the string operations of the source act). Fallible Rust functions returning
`anyhow::Result`/`datafusion::Result` are modelled with `Except`, with the
error payload being the rendered error message (rendering of the external
`DataFusionError`/`anyhow::Error` types is abstracted as the string carried
in the `Except.error`).
-/

/-- Text, modelling Rust `String` / `&str` as its sequence of Unicode scalar
values. -/
abbrev Str := List Char

/-! ## Rust string primitives used by the source -/

/-- Unicode `White_Space` test, modelling Rust `char::is_whitespace` (the set
used by `str::trim`). -/
def rustIsWhitespace (c : Char) : Bool :=
  (0x9 ≤ c.val && c.val ≤ 0xD) || c.val == 0x20 || c.val == 0x85 ||
    c.val == 0xA0 || c.val == 0x1680 || (0x2000 ≤ c.val && c.val ≤ 0x200A) ||
    c.val == 0x2028 || c.val == 0x2029 || c.val == 0x202F ||
    c.val == 0x205F || c.val == 0x3000

/-- Rust `str::trim`: remove leading and trailing whitespace. -/
def rustTrim (l : Str) : Str :=
  ((l.dropWhile rustIsWhitespace).reverse.dropWhile rustIsWhitespace).reverse

/-- Rust `str::split_inclusive('\n')`: the pieces of the string after each
newline cut, every piece keeping its terminating newline; an empty string
yields no pieces.  This is the first stage of Rust `str::lines`. -/
def splitInclusiveNl : Str → List Str
  | [] => []
  | c :: cs =>
    if c = '\n' then [c] :: splitInclusiveNl cs
    else
      match splitInclusiveNl cs with
      | [] => [[c]]
      | p :: ps => (c :: p) :: ps

/-- Second stage of Rust `str::lines`: strip a terminating `'\n'`, and a
`'\r'` directly before it (a `'\r'` not followed by `'\n'` is kept). -/
def rustLineMap (l : Str) : Str :=
  if l.getLast? = some '\n' then
    let l' := l.dropLast
    if l'.getLast? = some '\r' then l'.dropLast else l'
  else l

/-- Rust `str::lines`. -/
def rustLines (s : Str) : List Str :=
  (splitInclusiveNl s).map rustLineMap

/-- Rust `str::split("->")`: the (possibly empty) segments of the string
between consecutive non-overlapping occurrences of the two-character
delimiter `"->"`, scanned left to right. -/
def splitOnArrow : Str → List Str
  | [] => [[]]
  | [c] => [[c]]
  | c1 :: c2 :: rest =>
    if c1 = '-' ∧ c2 = '>' then [] :: splitOnArrow rest
    else
      match splitOnArrow (c2 :: rest) with
      | [] => [[c1]]
      | p :: ps => (c1 :: p) :: ps

/-- Specification-side view of the first `"->"` occurrence: `some (a, b)`
when the string is `a ++ "->" ++ b` with the occurrence in the middle being
the leftmost one, `none` when the string contains no `"->"`. -/
def arrowSplitFirst : Str → Option (Str × Str)
  | [] => none
  | [_] => none
  | c1 :: c2 :: rest =>
    if c1 = '-' ∧ c2 = '>' then some ([], rest)
    else (arrowSplitFirst (c2 :: rest)).map (fun p => (c1 :: p.1, p.2))

/-- Segment of a string before its first `"->"` (the whole string when there
is none). -/
def firstSegment (l : Str) : Str :=
  match arrowSplitFirst l with
  | none => l
  | some p => p.1

/-- Decimal digit character, `'0'` + d. -/
def digitChar (d : Nat) : Char := Char.ofNat (48 + d)

/-- Digit accumulation loop for `natDecimal` (structured like core's
`Nat.toDigitsCore`, with enough fuel to never run out). -/
def natDecimalCore : Nat → Nat → Str → Str
  | 0, _, acc => acc
  | fuel + 1, n, acc =>
    let acc' := digitChar (n % 10) :: acc
    if n < 10 then acc' else natDecimalCore fuel (n / 10) acc'

/-- Decimal rendering of a natural number, modelling Rust `{}` formatting of
`usize` (standard decimal notation, most significant digit first). -/
def natDecimal (n : Nat) : Str := natDecimalCore (n + 1) n []

/-- Escaping of one character inside a Rust `Debug`-formatted string literal
(`{:?}` on a `String`): quote, backslash and the common control characters
are escaped; other characters are kept.  (Rust `escape_debug` additionally
hex-escapes the remaining non-printable characters; those cases do not
affect any statement below and are kept verbatim here.) -/
def escapeDebugChar (c : Char) : Str :=
  if c = '"' then ['\\', '"']
  else if c = '\\' then ['\\', '\\']
  else if c = '\n' then ['\\', 'n']
  else if c = '\r' then ['\\', 'r']
  else if c = '\t' then ['\\', 't']
  else if c = Char.ofNat 0 then ['\\', '0']
  else [c]

/-- Rust `{:?}` on a `String`: quoted, characters escaped. -/
def debugString (s : Str) : Str :=
  '"' :: (s.map escapeDebugChar).flatten ++ ['"']

/-- Rust `{:?}` on a `Vec<String>`: bracketed, comma-separated `Debug`
renderings of the elements. -/
def debugVec (l : List Str) : Str :=
  '[' :: List.intercalate ", ".data (l.map debugString) ++ [']']

namespace LlmUdf

/-- Model of `parse_llm_response` (src/llm_udf.rs:150-159): split the raw
reply into lines; for each line, `line.split("->").nth(1)` (the segment
between the first and the second occurrence of `"->"`, or everything after
the first occurrence when it is the only one; `none` when the line has no
`"->"`), trimmed. Lines without the delimiter are dropped by `filterMap`. -/
def parse_llm_response (input : Str) : List Str :=
  (rustLines input).filterMap (fun line => ((splitOnArrow line)[1]?).map rustTrim)

/-- Diagnostic string built by `process_chunk` (src/llm_udf.rs:65-70) on a
count mismatch:
`format!("Error: mismatched result count: {} != {}. results: {:?}",
evaluated_values.len(), vals.len(), evaluated_values)`. -/
def mismatch_message (evaluated : List Str) (expected : Nat) : Str :=
  "Error: mismatched result count: ".data ++ natDecimal evaluated.length ++
    " != ".data ++ natDecimal expected ++ ". results: ".data ++ debugVec evaluated

/-- Model of `process_chunk` (src/llm_udf.rs:46-75).  The backend
(`OllamaApp::generate_text`, an HTTP call) is abstracted as a function `gen`
from (instruction, values) to either a raw reply or a rendered error message;
`OllamaApp::new` in the source is infallible (src/ollama_utils.rs:14-20
always returns `Ok`), so no separate failure point is modelled for it.  On a
parsed-count mismatch the chunk degrades to `vals.length` copies of the
diagnostic string and still returns `Except.ok`. -/
def process_chunk (gen : Str → List Str → Except Str Str) (instruction : Str)
    (vals : List Str) : Except Str (List Str) :=
  if vals = [] then .ok []
  else
    match gen instruction vals with
    | .error e => .error e
    | .ok llm_response =>
      let evaluated_values := parse_llm_response llm_response
      if evaluated_values.length = vals.length then .ok evaluated_values
      else .ok (List.replicate vals.length (mismatch_message evaluated_values vals.length))

/-- Batch size of the dispatcher in src/llm_udf.rs:112 (`let chunk_size = 5;`,
the remote-backend UDF). -/
def chunk_size : Nat := 5

/-- Modelled from the spec: the local-backend UDF variant (the second,
structurally similar UDF the spec describes) is not present under `src/`;
the spec fixes its default batch size at 10. -/
def local_chunk_size : Nat := 10

/-- Rust slice `chunks(B)` (used as `values.par_chunks(chunk_size)` in
src/llm_udf.rs:115): contiguous sub-slices of length `B`, the last one
possibly shorter.  (`chunks(0)` panics in Rust; the `B = 0` guard here is
dead code for the sizes 5 and 10 actually used.) -/
def parChunks (B : Nat) : List α → List (List α)
  | [] => []
  | l@(_ :: _) =>
    if _h : B = 0 then [] else l.take B :: parChunks B (l.drop B)
termination_by l => l.length
decreasing_by simp_all [List.length_drop]; omega

/-- One chunk of the `flat_map` body of `invoke_with_args`
(src/llm_udf.rs:116-130): materialize the chunk's values with `None` replaced
by the empty string, run `process_chunk`, and on error replace the chunk by
`vals.len()` copies of `"Error processing chunk: {e}"`. -/
def process_chunk_block (gen : Str → List Str → Except Str Str)
    (instruction : Str) (chunk : List (Option Str)) : List Str :=
  let vals := chunk.map (fun o => o.getD [])
  match process_chunk gen instruction vals with
  | .ok records => records
  | .error e => List.replicate vals.length ("Error processing chunk: ".data ++ e)

/-- Model of the array path of `invoke_with_args` (src/llm_udf.rs:104-135):
the column (an array of optional strings) is cut into chunks of
`chunk_size`, each chunk is processed by the `flat_map` body, and the
per-chunk outputs are concatenated in chunk order (`rayon`'s indexed
`flat_map` preserves order).  The scalar instruction may be NULL, in which
case `as_deref().unwrap_or_default()` substitutes the empty string. -/
def invoke_with_args (gen : Str → List Str → Except Str Str)
    (instruction : Option Str) (col : List (Option Str)) : List Str :=
  ((parChunks chunk_size col).map
    (process_chunk_block gen (instruction.getD []))).flatten

end LlmUdf

/-! ## Round-trip construction and its lemmas -/

/-- Reply format of the round-trip property: number the values 1-based and
render each as `"{i} -> {v}"`. -/
def numberLines (i : Nat) : List Str → List Str
  | [] => []
  | v :: vs => (natDecimal i ++ " -> ".data ++ v) :: numberLines (i + 1) vs

/-- Join lines with single `'\n'` separators (no trailing newline). -/
def joinLinesNl : List Str → Str
  | [] => []
  | [l] => l
  | l :: ls => l ++ '\n' :: joinLinesNl ls

/-- RawReply of the round-trip property:
`"1 -> {v1}\n2 -> {v2}\n...\nK -> {vK}"`. -/
def buildNumberedReply (vs : List Str) : Str := joinLinesNl (numberLines 1 vs)

/-! ## Streaming UTF-8 decoder (model of `encoding_rs::UTF_8`'s decoder,
the WHATWG incremental UTF-8 decode algorithm) -/

namespace Utf8

/-- Decoder state: the partially assembled code point, how many continuation
bytes are still needed, and the admissible range for the next byte. -/
structure DecState where
  cp : Nat
  needed : Nat
  lower : Nat
  upper : Nat
deriving DecidableEq

/-- Fresh decoder state (nothing buffered). -/
def initState : DecState := ⟨0, 0, 0x80, 0xBF⟩

/-- One byte consumed from the fresh state: ASCII is emitted, a lead byte
starts a multi-byte sequence (with the WHATWG boundary adjustments for
`E0`/`ED`/`F0`/`F4`), anything else is an error emitting U+FFFD. -/
def stepInit (b : Nat) : List Char × DecState :=
  if b ≤ 0x7F then ([Char.ofNat b], initState)
  else if 0xC2 ≤ b ∧ b ≤ 0xDF then ([], ⟨b % 32, 1, 0x80, 0xBF⟩)
  else if 0xE0 ≤ b ∧ b ≤ 0xEF then
    ([], ⟨b % 16, 2, if b = 0xE0 then 0xA0 else 0x80,
      if b = 0xED then 0x9F else 0xBF⟩)
  else if 0xF0 ≤ b ∧ b ≤ 0xF4 then
    ([], ⟨b % 8, 3, if b = 0xF0 then 0x90 else 0x80,
      if b = 0xF4 then 0x8F else 0xBF⟩)
  else ([Char.ofNat 0xFFFD], initState)

/-- One byte consumed from an arbitrary state: a continuation byte in range
extends (and possibly completes) the pending code point; a byte out of range
emits U+FFFD and is reprocessed from the fresh state. -/
def step (st : DecState) (b : Nat) : List Char × DecState :=
  if st.needed = 0 then stepInit b
  else if st.lower ≤ b ∧ b ≤ st.upper then
    let cp := st.cp * 64 + b % 64
    if st.needed = 1 then ([Char.ofNat cp], initState)
    else ([], ⟨cp, st.needed - 1, 0x80, 0xBF⟩)
  else (Char.ofNat 0xFFFD :: (stepInit b).1, (stepInit b).2)

/-- Run the decoder over a byte sequence, returning the emitted text and the
final state (any incomplete trailing sequence stays buffered in the state,
exactly like `decode_to_string(..., last = false)`). -/
def run (st : DecState) : List Nat → List Char × DecState
  | [] => ([], st)
  | b :: bs =>
    let r := step st b
    let rest := run r.2 bs
    (r.1 ++ rest.1, rest.2)

end Utf8

namespace LlmUtils

/-- What one iteration of the sampling loop of `generate_text`
(src/llm_utils.rs:113-120) does to a token's bytes: a fresh decoder
(`UTF_8.new_decoder()` is created inside the loop body), a single
`decode_to_string(&token_bytes, &mut decode_buffer, false)` call, and the
decoder is dropped — so any buffered incomplete suffix is lost. -/
def decode_token_bytes (bytes : List Nat) : Str :=
  (Utf8.run Utf8.initState bytes).1

/-- Modelled from the spec: decoding the same token byte stream with a
single decoder whose internal partial-byte state is carried across the whole
sampling loop (what §4.2 and the Design Notes describe). -/
def decodeCarried (tokens : List (List Nat)) : Str :=
  (Utf8.run Utf8.initState tokens.flatten).1

/-- The sampling loop of `generate_text` (src/llm_utils.rs:101-128):
`while n_cur <= max_generation_tokens` — sample (abstracted as the
position-indexed oracle `is_eog` / `token_bytes`), stop on an
end-of-generation token, otherwise decode the token's bytes with a fresh
decoder, append, and advance `n_cur` by one.  Failures of `token_to_bytes` /
`ctx.decode` abort the loop early and only shorten the run, so they are not
modelled as separate events. -/
def genLoop (is_eog : Int → Bool) (token_bytes : Int → List Nat)
    (max_generation_tokens : Int) (n_cur : Int) : Str :=
  if n_cur ≤ max_generation_tokens then
    if is_eog n_cur then []
    else decode_token_bytes (token_bytes n_cur) ++
      genLoop is_eog token_bytes max_generation_tokens (n_cur + 1)
  else []
termination_by (max_generation_tokens + 1 - n_cur).toNat
decreasing_by omega

/-- Number of times the loop body of `genLoop` starts executing. -/
def genIters (is_eog : Int → Bool) (max_generation_tokens : Int)
    (n_cur : Int) : Nat :=
  if n_cur ≤ max_generation_tokens then
    if is_eog n_cur then 1
    else 1 + genIters is_eog max_generation_tokens (n_cur + 1)
  else 0
termination_by (max_generation_tokens + 1 - n_cur).toNat
decreasing_by omega

/-- Text accumulated by `generate_text` (src/llm_utils.rs:96-129) after the
prefill: `n_cur` starts at `batch.n_tokens()`, the number of prompt tokens,
and `max_generation_tokens = ctx_size as i32 - prompt_length`. -/
def generate_text (is_eog : Int → Bool) (token_bytes : Int → List Nat)
    (ctx_size prompt_length : Nat) : Str :=
  genLoop is_eog token_bytes ((ctx_size : Int) - prompt_length) prompt_length

/-- Iteration count of the same loop. -/
def generate_iters (is_eog : Int → Bool) (ctx_size prompt_length : Nat) : Nat :=
  genIters is_eog ((ctx_size : Int) - prompt_length) prompt_length

end LlmUtils

/-! ## Remote backend reply extraction -/

namespace OllamaUtils

/-- JSON value, modelling `serde_json::Value`. -/
inductive Json where
  | null : Json
  | bool : Bool → Json
  | num : Int → Json
  | str : Str → Json
  | arr : List Json → Json
  | obj : List (Str × Json) → Json

/-- serde_json `Value` indexing `value[key]`: the named field of an object,
`Null` for a missing field or a non-object value. -/
def Json.index (j : Json) (k : Str) : Json :=
  match j with
  | .obj fields => (((fields.find? (fun f => f.1 == k)).map (fun f => f.2)).getD .null)
  | _ => .null

/-- serde_json `Value::as_str`. -/
def Json.asStr : Json → Option Str
  | .str s => some s
  | _ => none

/-- Tail of `OllamaApp::generate_text` (src/ollama_utils.rs:52-63) from the
body text on, as a function of the outcome of `serde_json::from_str`
(abstracted as `Option Json`; the serde error detail wrapped by the
`.context("Failed to parse Ollama response")` call is abstracted to the
context string): a parse failure is an error; otherwise
`json["message"]["content"].as_str().unwrap_or("No response content")` is
returned as a success. -/
def extract_reply (parsed : Option Json) : Except Str Str :=
  match parsed with
  | none => .error "Failed to parse Ollama response".data
  | some json =>
    .ok ((((json.index "message".data).index "content".data).asStr).getD
      "No response content".data)

end OllamaUtils

/-! ## Theorems -/

namespace LlmUdf

/-! ## Chunking lemmas -/

theorem parChunks_nil (B : Nat) : parChunks B ([] : List α) = [] := by
  simp [parChunks]

theorem parChunks_cons (B : Nat) (a : α) (t : List α) (hB : B ≠ 0) :
    parChunks B (a :: t) = (a :: t).take B :: parChunks B ((a :: t).drop B) := by
  simp [parChunks, hB]

theorem flatten_parChunks (B : Nat) (hB : B ≠ 0) (l : List α) :
    (parChunks B l).flatten = l := by
  induction l using parChunks.induct B with
  | case1 => simp [parChunks]
  | case2 a t h => exact absurd h hB
  | case3 a t h ih =>
    rw [parChunks_cons B a t hB]
    simp only [List.flatten_cons, ih]
    exact List.take_append_drop B (a :: t)

theorem parChunks_mem (B : Nat) (hB : B ≠ 0) (l : List α) :
    ∀ c ∈ parChunks B l, c ≠ [] ∧ c.length ≤ B := by
  induction l using parChunks.induct B with
  | case1 => simp [parChunks]
  | case2 a t h => exact absurd h hB
  | case3 a t h ih =>
    rw [parChunks_cons B a t hB]
    intro c hc
    rcases List.mem_cons.mp hc with rfl | hc
    · refine ⟨?_, by simp⟩
      cases B with
      | zero => exact absurd rfl hB
      | succ b => simp
    · exact ih c hc

theorem parChunks_dropLast_length (B : Nat) (hB : B ≠ 0) (l : List α) :
    ∀ c ∈ (parChunks B l).dropLast, c.length = B := by
  induction l using parChunks.induct B with
  | case1 => simp [parChunks]
  | case2 a t h => exact absurd h hB
  | case3 a t h ih =>
    rw [parChunks_cons B a t hB]
    intro c hc
    cases hdrop : (a :: t).drop B with
    | nil => rw [hdrop, parChunks_nil] at hc; simp at hc
    | cons x xs =>
      rw [hdrop] at hc
      have hne : parChunks B (x :: xs) ≠ [] := by
        rw [parChunks_cons B x xs hB]; simp
      rw [List.dropLast_cons_of_ne_nil hne] at hc
      rcases List.mem_cons.mp hc with rfl | hc
      · have hlen : B < (a :: t).length := by
          have := List.drop_eq_nil_iff (l := a :: t) (k := B)
          by_cases hle : (a :: t).length ≤ B
          · rw [this.mpr hle] at hdrop; cases hdrop
          · omega
        simp only [List.length_cons] at hlen
        simp [List.length_take]
        omega
      · rw [← hdrop] at hc
        exact ih c hc

theorem parChunks_map (B : Nat) (g : α → β) (l : List α) :
    parChunks B (l.map g) = (parChunks B l).map (List.map g) := by
  induction l using parChunks.induct B with
  | case1 => simp [parChunks]
  | case2 a t h => subst h; simp [parChunks]
  | case3 a t h ih =>
    rw [parChunks_cons B a t h, show (a :: t).map g = g a :: t.map g from rfl,
      parChunks_cons B (g a) (t.map g) h]
    rw [show g a :: t.map g = (a :: t).map g from rfl, ← List.map_take, ← List.map_drop, ih]
    simp

theorem flatten_map_getElem (B : Nat) (hB : B ≠ 0) (f : List α → List β)
    (hf : ∀ c, (f c).length = c.length) (l : List α) :
    ∀ i : Nat, i < l.length →
      ((parChunks B l).map f).flatten[i]? =
        (f (((parChunks B l)[i / B]?).getD []))[i % B]? := by
  induction l using parChunks.induct B with
  | case1 => intro i hi; simp at hi
  | case2 a t h => exact absurd h hB
  | case3 a t h ih =>
    intro i hi
    rw [parChunks_cons B a t hB]
    simp only [List.map_cons, List.flatten_cons]
    have hlen0 : (f ((a :: t).take B)).length = min B (a :: t).length := by
      rw [hf]; simp [List.length_take]
    by_cases hcase : i < (f ((a :: t).take B)).length
    · have hiB : i < B := by rw [hlen0] at hcase; omega
      rw [List.getElem?_append, if_pos hcase, Nat.div_eq_of_lt hiB, Nat.mod_eq_of_lt hiB]
      simp
    · have hmin : min B (a :: t).length = B := by
        rw [hlen0] at hcase; omega
      have hBi : B ≤ i := by rw [hlen0, hmin] at hcase; omega
      rw [List.getElem?_append, if_neg hcase, hlen0, hmin]
      have hilen : i - B < ((a :: t).drop B).length := by
        simp only [List.length_cons] at hi
        simp [List.length_drop]
        omega
      rw [ih (i - B) hilen]
      have hdiv : i / B = (i - B) / B + 1 := by
        conv_lhs => rw [show i = (i - B) + B by omega]
        rw [Nat.add_div_right _ (Nat.pos_of_ne_zero hB)]
      have hmod : i % B = (i - B) % B := by
        conv_lhs => rw [show i = (i - B) + B by omega]
        exact Nat.add_mod_right _ _
      rw [hdiv, hmod]
      simp

/-! ## Length preservation -/

theorem process_chunk_ok_length (gen : Str → List Str → Except Str Str)
    (instruction : Str) (vals out : List Str)
    (h : process_chunk gen instruction vals = .ok out) : out.length = vals.length := by
  unfold process_chunk at h
  by_cases hv : vals = []
  · simp [hv] at h
    subst hv
    simp [← h]
  · simp only [if_neg hv] at h
    cases hg : gen instruction vals with
    | error e => rw [hg] at h; cases h
    | ok reply =>
      rw [hg] at h
      by_cases hm : (parse_llm_response reply).length = vals.length
      · simp only [if_pos hm, Except.ok.injEq] at h
        rw [← h]; exact hm
      · simp only [if_neg hm, Except.ok.injEq] at h
        rw [← h]; exact List.length_replicate ..

theorem process_chunk_block_length (gen : Str → List Str → Except Str Str)
    (instruction : Str) (chunk : List (Option Str)) :
    (process_chunk_block gen instruction chunk).length = chunk.length := by
  cases hres : process_chunk gen instruction (chunk.map (fun o => o.getD [])) with
  | ok records =>
    simp only [process_chunk_block, hres]
    rw [process_chunk_ok_length gen instruction _ records hres, List.length_map]
  | error e =>
    simp only [process_chunk_block, hres, List.length_replicate, List.length_map]

theorem invoke_with_args_length (gen : Str → List Str → Except Str Str)
    (instruction : Option Str) (col : List (Option Str)) :
    (invoke_with_args gen instruction col).length = col.length := by
  unfold invoke_with_args
  rw [List.length_flatten, List.map_map]
  have hcong : List.map (List.length ∘ process_chunk_block gen (instruction.getD []))
      (parChunks chunk_size col) = List.map List.length (parChunks chunk_size col) :=
    List.map_congr_left
      (fun c _ => process_chunk_block_length gen (instruction.getD []) c)
  rw [hcong, ← List.length_flatten, flatten_parChunks chunk_size (by decide) col]

end LlmUdf

/-- C1.  Length preservation: for every input column of optional strings and
every instruction, the array path of the `ask_llm` UDF (`invoke_with_args`)
returns exactly as many output strings as there are input rows, for every
backend behaviour `gen` (success, failure, or mismatched reply count on any
batch). -/
theorem C1_length_preservation (gen : Str → List Str → Except Str Str)
    (instruction : Option Str) (col : List (Option Str)) :
    (LlmUdf.invoke_with_args gen instruction col).length = col.length :=
  LlmUdf.invoke_with_args_length gen instruction col

/-- C2.  Mismatch containment: when the backend reply parses to a number of
values different from the (positive) batch size, `process_chunk` returns
`Except.ok` (no error to the caller) with exactly `vals.length` copies of one
diagnostic string, and that diagnostic string contains the decimal rendering
of both counts and the `Debug` rendering of the raw parsed values. -/
theorem C2_mismatch_containment (gen : Str → List Str → Except Str Str)
    (instruction : Str) (vals : List Str) (reply : Str)
    (hne : vals ≠ [])
    (hok : gen instruction vals = .ok reply)
    (hmis : (LlmUdf.parse_llm_response reply).length ≠ vals.length) :
    LlmUdf.process_chunk gen instruction vals =
      .ok (List.replicate vals.length
        (LlmUdf.mismatch_message (LlmUdf.parse_llm_response reply) vals.length))
    ∧ natDecimal (LlmUdf.parse_llm_response reply).length <:+:
        LlmUdf.mismatch_message (LlmUdf.parse_llm_response reply) vals.length
    ∧ natDecimal vals.length <:+:
        LlmUdf.mismatch_message (LlmUdf.parse_llm_response reply) vals.length
    ∧ debugVec (LlmUdf.parse_llm_response reply) <:+:
        LlmUdf.mismatch_message (LlmUdf.parse_llm_response reply) vals.length := by
  refine ⟨?_, ?_, ?_, ?_⟩
  · unfold LlmUdf.process_chunk
    rw [if_neg hne, hok]
    simp only [if_neg hmis]
  · exact ⟨"Error: mismatched result count: ".data,
      " != ".data ++ natDecimal vals.length ++ ". results: ".data ++
        debugVec (LlmUdf.parse_llm_response reply),
      by simp [LlmUdf.mismatch_message]⟩
  · exact ⟨"Error: mismatched result count: ".data ++
        natDecimal (LlmUdf.parse_llm_response reply).length ++ " != ".data,
      ". results: ".data ++ debugVec (LlmUdf.parse_llm_response reply),
      by simp [LlmUdf.mismatch_message]⟩
  · exact ⟨"Error: mismatched result count: ".data ++
        natDecimal (LlmUdf.parse_llm_response reply).length ++ " != ".data ++
        natDecimal vals.length ++ ". results: ".data,
      [], by simp [LlmUdf.mismatch_message]⟩

/-- Witness for C2 at a concrete input: a two-row batch whose backend reply
parses to a single value. -/
theorem C2_mismatch_containment_witness :
    LlmUdf.process_chunk (fun _ _ => .ok "1 -> a".data) "i".data
        ["x".data, "y".data] =
      .ok (List.replicate 2
        (LlmUdf.mismatch_message (LlmUdf.parse_llm_response "1 -> a".data) 2))
    ∧ natDecimal (LlmUdf.parse_llm_response "1 -> a".data).length <:+:
        LlmUdf.mismatch_message (LlmUdf.parse_llm_response "1 -> a".data) 2 := by
  have h := C2_mismatch_containment (fun _ _ => .ok "1 -> a".data) "i".data
    ["x".data, "y".data] "1 -> a".data (by decide) rfl (by decide)
  exact ⟨h.1, h.2.1⟩

/-- C9.  Empty batch short-circuit: `process_chunk` on an empty batch
returns the empty result, for every backend, and the result does not depend
on the backend at all (the guard on src/llm_udf.rs:48 returns before
`OllamaApp::new` and `generate_text` are ever reached). -/
theorem C9_empty_batch_short_circuit
    (gen gen' : Str → List Str → Except Str Str) (instruction : Str) :
    LlmUdf.process_chunk gen instruction [] = .ok []
    ∧ LlmUdf.process_chunk gen instruction [] =
        LlmUdf.process_chunk gen' instruction [] :=
  ⟨rfl, rfl⟩

/-- C6.  Batch error isolation: if the backend errors on one batch of the
column, the dispatcher turns exactly that batch into `batch.length` copies of
`"Error processing chunk: {e}"`, the whole output stays the concatenation of
the independently computed per-batch blocks, and the evaluation still
produces one row per input row (no abort). -/
theorem C6_batch_error_isolation (gen : Str → List Str → Except Str Str)
    (instruction : Option Str) (col chunk : List (Option Str)) (e : Str)
    (hmem : chunk ∈ LlmUdf.parChunks LlmUdf.chunk_size col)
    (herr : LlmUdf.process_chunk gen (instruction.getD [])
        (chunk.map (fun o => o.getD [])) = .error e) :
    LlmUdf.process_chunk_block gen (instruction.getD []) chunk
      = List.replicate chunk.length ("Error processing chunk: ".data ++ e)
    ∧ LlmUdf.invoke_with_args gen instruction col
      = ((LlmUdf.parChunks LlmUdf.chunk_size col).map
          (LlmUdf.process_chunk_block gen (instruction.getD []))).flatten
    ∧ (LlmUdf.invoke_with_args gen instruction col).length = col.length := by
  refine ⟨?_, rfl, LlmUdf.invoke_with_args_length gen instruction col⟩
  simp only [LlmUdf.process_chunk_block, herr, List.length_map]

/-- Witness for C6: a single-row column whose backend call fails. -/
theorem C6_batch_error_isolation_witness :
    LlmUdf.process_chunk_block (fun _ _ => .error "boom".data) "i".data
        [some "a".data]
      = List.replicate 1 ("Error processing chunk: ".data ++ "boom".data)
    ∧ (LlmUdf.invoke_with_args (fun _ _ => .error "boom".data)
        (some "i".data) [some "a".data]).length = 1 := by
  have h := C6_batch_error_isolation (fun _ _ => .error "boom".data)
    (some "i".data) [some "a".data] [some "a".data] "boom".data
    (by simp [LlmUdf.parChunks, LlmUdf.chunk_size]) rfl
  exact ⟨h.1, h.2.2⟩

/-- Replacing every missing value of a chunk by `some ""` upfront does not
change the chunk's block result: the block itself starts by substituting the
empty string for missing values (`opt.unwrap_or_default()`). -/
theorem LlmUdf.process_chunk_block_fill (gen : Str → List Str → Except Str Str)
    (instruction : Str) (chunk : List (Option Str)) :
    LlmUdf.process_chunk_block gen instruction (chunk.map (fun o => some (o.getD []))) =
      LlmUdf.process_chunk_block gen instruction chunk := by
  have h : (chunk.map (fun o => some (o.getD []))).map (fun o => o.getD ([] : Str)) =
      chunk.map (fun o => o.getD []) := by
    rw [List.map_map]; simp [Function.comp]
  simp only [LlmUdf.process_chunk_block, h]

/-- Replacing every missing value of the column by `some ""` upfront does not
change the dispatcher's output. -/
theorem LlmUdf.invoke_with_args_fill (gen : Str → List Str → Except Str Str)
    (instruction : Option Str) (col : List (Option Str)) :
    LlmUdf.invoke_with_args gen instruction (col.map (fun o => some (o.getD []))) =
      LlmUdf.invoke_with_args gen instruction col := by
  unfold LlmUdf.invoke_with_args
  rw [LlmUdf.parChunks_map LlmUdf.chunk_size (fun o => some (o.getD [])) col,
    List.map_map]
  congr 1
  apply List.map_congr_left
  intro c _
  exact LlmUdf.process_chunk_block_fill gen (instruction.getD []) c

/-- C5.  Dispatcher partitioning and order: for either batch size (5 for the
remote-backend UDF in the source, 10 for the spec-modelled local variant) the
batches are contiguous, cover the column exactly with no overlap and no gap
(their concatenation is the column itself), every batch is non-empty with at
most `B` rows, only the last batch may be shorter than `B`; missing values
are replaced by the empty string before processing, and the i-th output row
is row `i % B` of the block computed from batch `i / B` (outputs are
concatenated in original batch order). -/
theorem C5_dispatcher_partitioning (gen : Str → List Str → Except Str Str)
    (instruction : Option Str) (col : List (Option Str)) (B : Nat)
    (hB : B = LlmUdf.chunk_size ∨ B = LlmUdf.local_chunk_size) :
    (LlmUdf.parChunks B col).flatten = col
    ∧ (∀ c ∈ LlmUdf.parChunks B col, c ≠ [] ∧ c.length ≤ B)
    ∧ (∀ c ∈ (LlmUdf.parChunks B col).dropLast, c.length = B)
    ∧ LlmUdf.invoke_with_args gen instruction col
        = LlmUdf.invoke_with_args gen instruction (col.map (fun o => some (o.getD [])))
    ∧ (∀ i : Nat, i < col.length →
        (LlmUdf.invoke_with_args gen instruction col)[i]? =
          (LlmUdf.process_chunk_block gen (instruction.getD [])
            (((LlmUdf.parChunks LlmUdf.chunk_size col)[i / LlmUdf.chunk_size]?).getD
              []))[i % LlmUdf.chunk_size]?) := by
  have hB0 : B ≠ 0 := by rcases hB with rfl | rfl <;> decide
  refine ⟨LlmUdf.flatten_parChunks B hB0 col, LlmUdf.parChunks_mem B hB0 col,
    LlmUdf.parChunks_dropLast_length B hB0 col,
    (LlmUdf.invoke_with_args_fill gen instruction col).symm, ?_⟩
  intro i hi
  unfold LlmUdf.invoke_with_args
  exact LlmUdf.flatten_map_getElem LlmUdf.chunk_size (by decide) _
    (LlmUdf.process_chunk_block_length gen (instruction.getD [])) col i hi

/-- Witness for C5 at a concrete column with a missing value and batch
size 5. -/
theorem C5_dispatcher_partitioning_witness :
    (LlmUdf.parChunks 5 [some "a".data, none]).flatten = [some "a".data, none]
    ∧ LlmUdf.invoke_with_args (fun _ _ => .ok "1 -> A\n2 -> B".data)
        (some "i".data) [some "a".data, none]
      = LlmUdf.invoke_with_args (fun _ _ => .ok "1 -> A\n2 -> B".data)
        (some "i".data)
        (List.map (fun o => some (o.getD [])) [some "a".data, none]) := by
  have h := C5_dispatcher_partitioning (fun _ _ => .ok "1 -> A\n2 -> B".data)
    (some "i".data) [some "a".data, none] 5 (Or.inl rfl)
  exact ⟨h.1, h.2.2.2.1⟩

/-! ## Parser lemmas: relating `split("->").nth(1)` to the first-occurrence
view -/

theorem splitOnArrow_ne_nil (l : Str) : splitOnArrow l ≠ [] := by
  induction l using splitOnArrow.induct with
  | case1 => simp [splitOnArrow]
  | case2 c => simp [splitOnArrow]
  | case3 c1 c2 rest h ih => simp [splitOnArrow, h]
  | case4 c1 c2 rest h hnil ih => exact absurd hnil ih
  | case5 c1 c2 rest h p ps hcons ih => simp [splitOnArrow, h, hcons]

theorem splitOnArrow_eq_arrowSplit (l : Str) :
    splitOnArrow l = match arrowSplitFirst l with
      | none => [l]
      | some pr => pr.1 :: splitOnArrow pr.2 := by
  induction l using splitOnArrow.induct with
  | case1 => simp [splitOnArrow, arrowSplitFirst]
  | case2 c => simp [splitOnArrow, arrowSplitFirst]
  | case3 c1 c2 rest h ih => simp [splitOnArrow, arrowSplitFirst, h]
  | case4 c1 c2 rest h hnil ih => exact absurd hnil (splitOnArrow_ne_nil _)
  | case5 c1 c2 rest h p ps hcons ih =>
    rw [hcons] at ih
    have hL : splitOnArrow (c1 :: c2 :: rest) = (c1 :: p) :: ps := by
      simp [splitOnArrow, h, hcons]
    have hA : arrowSplitFirst (c1 :: c2 :: rest) =
        (arrowSplitFirst (c2 :: rest)).map (fun q => (c1 :: q.1, q.2)) := by
      simp [arrowSplitFirst, h]
    rw [hL, hA]
    cases hfs : arrowSplitFirst (c2 :: rest) with
    | none =>
      rw [hfs] at ih
      simp only [] at ih
      simp at ih
      simp [ih.1, ih.2]
    | some pr =>
      rw [hfs] at ih
      simp only [] at ih
      simp at ih
      simp [ih.1, ih.2]

theorem head?_splitOnArrow (l : Str) :
    (splitOnArrow l).head? = some (firstSegment l) := by
  rw [splitOnArrow_eq_arrowSplit l]
  unfold firstSegment
  cases arrowSplitFirst l <;> simp

theorem splitOnArrow_get1 (l : Str) :
    (splitOnArrow l)[1]? = (arrowSplitFirst l).map (fun pr => firstSegment pr.2) := by
  rw [splitOnArrow_eq_arrowSplit l]
  cases arrowSplitFirst l with
  | none => simp
  | some pr =>
    simp only [Option.map_some']
    rw [List.getElem?_cons_succ, ← List.head?_eq_getElem?, head?_splitOnArrow]

/-- C4 amended.  Parser line semantics: `parse_llm_response` splits the input
into Rust lines; each line containing `"->"` contributes exactly one value,
namely the segment strictly between the first occurrence of `"->"` and the
next occurrence (or the end of the line when the first occurrence is the only
one), trimmed of surrounding whitespace; lines without `"->"` contribute
nothing, and output order follows line order. -/
theorem C4_parser_line_semantics (input : Str) :
    LlmUdf.parse_llm_response input =
      (rustLines input).filterMap
        (fun line => (arrowSplitFirst line).map
          (fun pr => rustTrim (firstSegment pr.2))) := by
  unfold LlmUdf.parse_llm_response
  congr 1
  funext line
  rw [splitOnArrow_get1, Option.map_map]
  rfl

/-- C4 counterexample.  On the line `"x -> a -> b"` the parser yields `"a"`
(the segment between the first and second `"->"`), while the claim's reading
— everything after the first `"->"`, trimmed — would yield `"a -> b"`. -/
theorem C4_counterexample :
    LlmUdf.parse_llm_response "x -> a -> b".data = ["a".data]
    ∧ (rustLines "x -> a -> b".data).filterMap
        (fun line => (arrowSplitFirst line).map (fun pr => rustTrim pr.2))
      = ["a -> b".data]
    ∧ ("a".data : Str) ≠ "a -> b".data := by
  refine ⟨by decide, by decide, by decide⟩

theorem arrowSplitFirst_cons (c : Char) (cs : Str) (hc : c ≠ '-') (hcs : cs ≠ []) :
    arrowSplitFirst (c :: cs) = (arrowSplitFirst cs).map (fun p => (c :: p.1, p.2)) := by
  cases cs with
  | nil => exact absurd rfl hcs
  | cons d cs' =>
    simp only [arrowSplitFirst]
    rw [if_neg (fun hand => hc hand.1)]

theorem arrowSplitFirst_append (a b : Str) (ha : '-' ∉ a) :
    arrowSplitFirst (a ++ '-' :: '>' :: b) = some (a, b) := by
  induction a with
  | nil => simp [arrowSplitFirst]
  | cons c a' ih =>
    have hc : c ≠ '-' := fun h => ha (by simp [h])
    rw [List.cons_append, arrowSplitFirst_cons c _ hc (by simp),
      ih (fun h => ha (List.mem_cons_of_mem _ h))]
    rfl

theorem arrowSplitFirst_some_eq (l : Str) :
    ∀ pr : Str × Str, arrowSplitFirst l = some pr → l = pr.1 ++ '-' :: '>' :: pr.2 := by
  induction l using arrowSplitFirst.induct with
  | case1 => intro pr h; cases h
  | case2 c => intro pr h; cases h
  | case3 c1 c2 rest h =>
    intro pr hpr
    simp only [arrowSplitFirst, if_pos h] at hpr
    obtain ⟨rfl, rfl⟩ := h
    cases hpr
    rfl
  | case4 c1 c2 rest h ih =>
    intro pr hpr
    simp only [arrowSplitFirst, if_neg h] at hpr
    cases hfs : arrowSplitFirst (c2 :: rest) with
    | none => rw [hfs] at hpr; cases hpr
    | some q =>
      rw [hfs] at hpr
      simp only [Option.map_some'] at hpr
      cases hpr
      rw [show ((c1 :: q.1, q.2) : Str × Str).1 = c1 :: q.1 from rfl]
      rw [List.cons_append, ← ih q hfs]

theorem arrowSplitFirst_ne_none_of_decomp (t : Str) :
    ∀ s : Str, arrowSplitFirst (s ++ '-' :: '>' :: t) ≠ none := by
  intro s
  induction s with
  | nil => simp [arrowSplitFirst]
  | cons c s' ih =>
    cases hd : s' ++ '-' :: '>' :: t with
    | nil => simp at hd
    | cons d rest =>
      rw [List.cons_append, hd]
      simp only [arrowSplitFirst]
      by_cases harr : c = '-' ∧ d = '>'
      · rw [if_pos harr]; simp
      · rw [if_neg harr]
        rw [← hd]
        intro hmap
        exact ih (Option.map_eq_none'.mp hmap)

/-- A string has `"->"` as a contiguous substring exactly when
`arrowSplitFirst` finds an occurrence. -/
theorem arrow_infix_iff (l : Str) : (['-', '>'] <:+: l) ↔ arrowSplitFirst l ≠ none := by
  constructor
  · rintro ⟨s, t, rfl⟩
    rw [show s ++ ['-', '>'] ++ t = s ++ '-' :: '>' :: t by simp]
    exact arrowSplitFirst_ne_none_of_decomp t s
  · intro h
    cases hfs : arrowSplitFirst l with
    | none => exact absurd hfs h
    | some pr =>
      refine ⟨pr.1, pr.2, ?_⟩
      rw [arrowSplitFirst_some_eq l pr hfs]
      simp

theorem arrowSplitFirst_space_cons (v : Str) (hv : arrowSplitFirst v = none) :
    arrowSplitFirst (' ' :: v) = none := by
  cases v with
  | nil => rfl
  | cons d v' =>
    rw [arrowSplitFirst_cons ' ' (d :: v') (by decide) (by simp), hv]
    rfl

theorem firstSegment_of_none (l : Str) (h : arrowSplitFirst l = none) :
    firstSegment l = l := by
  unfold firstSegment
  rw [h]

/-! ## Digit and whitespace lemmas -/

theorem natDecimalCore_mem (fuel : Nat) :
    ∀ (n : Nat) (acc : Str), ∀ c ∈ natDecimalCore fuel n acc,
      (∃ d, d < 10 ∧ c = digitChar d) ∨ c ∈ acc := by
  induction fuel with
  | zero => intro n acc c hc; exact Or.inr hc
  | succ fuel ih =>
    intro n acc c hc
    simp only [natDecimalCore] at hc
    by_cases hn : n < 10
    · rw [if_pos hn] at hc
      rcases List.mem_cons.mp hc with rfl | hc
      · exact Or.inl ⟨n % 10, Nat.mod_lt _ (by omega), rfl⟩
      · exact Or.inr hc
    · rw [if_neg hn] at hc
      rcases ih (n / 10) _ c hc with hdig | hacc
      · exact Or.inl hdig
      · rcases List.mem_cons.mp hacc with rfl | hacc
        · exact Or.inl ⟨n % 10, Nat.mod_lt _ (by omega), rfl⟩
        · exact Or.inr hacc

theorem natDecimal_mem (n : Nat) : ∀ c ∈ natDecimal n, ∃ d, d < 10 ∧ c = digitChar d := by
  intro c hc
  rcases natDecimalCore_mem (n + 1) n [] c hc with h | h
  · exact h
  · simp at h

theorem digitChar_not_special (d : Nat) (hd : d < 10) :
    digitChar d ≠ '-' ∧ digitChar d ≠ '\n' := by
  interval_cases d <;> exact ⟨by decide, by decide⟩

theorem natDecimal_no_dash (n : Nat) : '-' ∉ natDecimal n := by
  intro h
  obtain ⟨d, hd, hEq⟩ := natDecimal_mem n '-' h
  exact (digitChar_not_special d hd).1 hEq.symm

theorem natDecimal_no_nl (n : Nat) : '\n' ∉ natDecimal n := by
  intro h
  obtain ⟨d, hd, hEq⟩ := natDecimal_mem n '\n' h
  exact (digitChar_not_special d hd).2 hEq.symm

theorem dropWhile_eq_self_head (p : Char → Bool) (c : Char) (t : Str)
    (h : List.dropWhile p (c :: t) = c :: t) : p c = false := by
  by_contra hpc
  simp only [Bool.not_eq_false] at hpc
  rw [List.dropWhile_cons, if_pos hpc] at h
  have hle := (List.dropWhile_suffix (l := t) p).length_le
  rw [h] at hle
  simp at hle

theorem mem_of_getLast?_eq (l : Str) (x : Char) (h : l.getLast? = some x) : x ∈ l := by
  rw [List.getLast?_eq_head?_reverse] at h
  have hx : x ∈ l.reverse := by
    cases hr : l.reverse with
    | nil => rw [hr] at h; cases h
    | cons c t =>
      rw [hr] at h
      simp only [List.head?_cons, Option.some.injEq] at h
      rw [← h]
      exact List.mem_cons_self ..
  simpa using hx

/-- A string fixed by `trim` drops nothing from either end: its leading and
trailing character (when present) are not whitespace. -/
theorem rustTrim_fixed_dropWhile (v : Str) (hv : rustTrim v = v) :
    v.dropWhile rustIsWhitespace = v ∧
      v.reverse.dropWhile rustIsWhitespace = v.reverse := by
  have h1 : (v.dropWhile rustIsWhitespace) <:+ v := List.dropWhile_suffix _
  have h2 : ((v.dropWhile rustIsWhitespace).reverse.dropWhile rustIsWhitespace) <:+
      (v.dropWhile rustIsWhitespace).reverse := List.dropWhile_suffix _
  have hlen := congrArg List.length hv
  rw [rustTrim, List.length_reverse] at hlen
  have hlen1 := h1.length_le
  have hlen2 := h2.length_le
  rw [List.length_reverse] at hlen2
  have hEq1 : v.dropWhile rustIsWhitespace = v :=
    h1.eq_of_length (by omega)
  refine ⟨hEq1, ?_⟩
  have := h2.eq_of_length (by
    rw [hEq1] at hlen ⊢
    rw [List.length_reverse]
    exact hlen)
  rw [hEq1] at this
  exact this

theorem rustTrim_fixed_getLast (v : Str) (hv : rustTrim v = v) (x : Char)
    (hx : v.getLast? = some x) : rustIsWhitespace x = false := by
  have h2 := (rustTrim_fixed_dropWhile v hv).2
  rw [List.getLast?_eq_head?_reverse] at hx
  cases hr : v.reverse with
  | nil => rw [hr] at hx; cases hx
  | cons c t =>
    rw [hr] at hx h2
    simp only [List.head?_cons, Option.some.injEq] at hx
    rw [← hx]
    exact dropWhile_eq_self_head rustIsWhitespace c t h2

theorem rustTrim_space_cons (v : Str) : rustTrim (' ' :: v) = rustTrim v := by
  unfold rustTrim
  rw [List.dropWhile_cons, if_pos (by decide)]

/-! ## Rust `lines` of a newline-joined list -/

theorem splitInclusiveNl_no_nl (a : Str) (ha : '\n' ∉ a) (hne : a ≠ []) :
    splitInclusiveNl a = [a] := by
  induction a with
  | nil => exact absurd rfl hne
  | cons c a' ih =>
    have hc : c ≠ '\n' := fun h => ha (by simp [h])
    simp only [splitInclusiveNl, if_neg hc]
    by_cases ha' : a' = []
    · subst ha'; rfl
    · rw [ih (fun h => ha (List.mem_cons_of_mem _ h)) ha']

theorem splitInclusiveNl_append (a b : Str) (ha : '\n' ∉ a) :
    splitInclusiveNl (a ++ '\n' :: b) = (a ++ ['\n']) :: splitInclusiveNl b := by
  induction a with
  | nil => simp [splitInclusiveNl]
  | cons c a' ih =>
    have hc : c ≠ '\n' := fun h => ha (by simp [h])
    rw [List.cons_append]
    simp only [splitInclusiveNl, if_neg hc]
    rw [ih (fun h => ha (List.mem_cons_of_mem _ h))]
    rfl

theorem rustLineMap_append_nl (a : Str) (ha : a.getLast? ≠ some '\r') :
    rustLineMap (a ++ ['\n']) = a := by
  unfold rustLineMap
  rw [List.getLast?_concat, if_pos rfl, List.dropLast_concat, if_neg ha]

theorem rustLineMap_no_nl (a : Str) (ha : '\n' ∉ a) : rustLineMap a = a := by
  unfold rustLineMap
  rw [if_neg (fun h => ha (mem_of_getLast?_eq a '\n' h))]

theorem rustLines_joinLines (ls : List Str)
    (h : ∀ l ∈ ls, '\n' ∉ l ∧ l ≠ [] ∧ l.getLast? ≠ some '\r') :
    rustLines (joinLinesNl ls) = ls := by
  induction ls with
  | nil => rfl
  | cons l ls ih =>
    cases ls with
    | nil =>
      obtain ⟨h1, h2, h3⟩ := h l (by simp)
      show rustLines (joinLinesNl [l]) = [l]
      rw [show joinLinesNl [l] = l from rfl]
      unfold rustLines
      rw [splitInclusiveNl_no_nl l h1 h2]
      simp [rustLineMap_no_nl l h1]
    | cons l2 ls2 =>
      obtain ⟨h1, h2, h3⟩ := h l (by simp)
      rw [show joinLinesNl (l :: l2 :: ls2) = l ++ '\n' :: joinLinesNl (l2 :: ls2)
        from rfl]
      unfold rustLines
      rw [splitInclusiveNl_append l _ h1, List.map_cons, rustLineMap_append_nl l h3]
      have hrest := ih (fun x hx => h x (List.mem_cons_of_mem _ hx))
      unfold rustLines at hrest
      rw [hrest]

theorem numberLines_props (vs : List Str)
    (h : ∀ v ∈ vs, ¬ (['-', '>'] <:+: v) ∧ '\n' ∉ v ∧ rustTrim v = v) :
    ∀ i : Nat, ∀ l ∈ numberLines i vs,
      '\n' ∉ l ∧ l ≠ [] ∧ l.getLast? ≠ some '\r' := by
  induction vs with
  | nil => intro i l hl; simp [numberLines] at hl
  | cons v vs ih =>
    intro i l hl
    obtain ⟨hv1, hv2, hv3⟩ := h v (by simp)
    simp only [numberLines, List.mem_cons] at hl
    rcases hl with rfl | hl
    · refine ⟨?_, ?_, ?_⟩
      · intro hmem
        rcases List.mem_append.mp hmem with hm | hm
        · rcases List.mem_append.mp hm with hm2 | hm2
          · exact natDecimal_no_nl i hm2
          · exact absurd hm2 (by decide)
        · exact hv2 hm
      · simp [List.append_eq_nil]
      · intro hlast
        rw [List.getLast?_append, List.getLast?_append] at hlast
        cases hlv : v.getLast? with
        | some x =>
          rw [hlv] at hlast
          have hx : x = '\r' := by simpa using hlast
          have hws := rustTrim_fixed_getLast v hv3 x hlv
          rw [hx] at hws
          exact absurd hws (by decide)
        | none =>
          rw [hlv, show (" -> ".data : Str).getLast? = some ' ' from rfl] at hlast
          simp at hlast
    · exact ih (fun x hx => h x (List.mem_cons_of_mem _ hx)) (i + 1) l hl

theorem line_parse_value (i : Nat) (v : Str)
    (hv1 : ¬ (['-', '>'] <:+: v)) (hv3 : rustTrim v = v) :
    ((splitOnArrow (natDecimal i ++ " -> ".data ++ v))[1]?).map rustTrim = some v := by
  have hnone : arrowSplitFirst v = none := by
    cases hfs : arrowSplitFirst v with
    | none => rfl
    | some pr => exact absurd ((arrow_infix_iff v).mpr (by rw [hfs]; simp)) hv1
  have hshape : natDecimal i ++ " -> ".data ++ v
      = (natDecimal i ++ [' ']) ++ '-' :: '>' :: (' ' :: v) := by
    simp
  have hnodash : '-' ∉ natDecimal i ++ [' '] := by
    intro hm
    rcases List.mem_append.mp hm with hm | hm
    · exact natDecimal_no_dash i hm
    · simp at hm
  rw [splitOnArrow_get1, hshape, arrowSplitFirst_append _ _ hnodash,
    Option.map_some', Option.map_some']
  rw [firstSegment_of_none _ (arrowSplitFirst_space_cons v hnone),
    rustTrim_space_cons, hv3]

theorem filterMap_numberLines (vs : List Str)
    (h : ∀ v ∈ vs, ¬ (['-', '>'] <:+: v) ∧ '\n' ∉ v ∧ rustTrim v = v) :
    ∀ i : Nat,
      (numberLines i vs).filterMap
        (fun line => ((splitOnArrow line)[1]?).map rustTrim) = vs := by
  induction vs with
  | nil => intro i; rfl
  | cons v vs ih =>
    intro i
    obtain ⟨hv1, _, hv3⟩ := h v (by simp)
    simp only [numberLines, List.filterMap_cons]
    rw [line_parse_value i v hv1 hv3]
    rw [ih (fun x hx => h x (List.mem_cons_of_mem _ hx)) (i + 1)]

/-- C3 amended.  Round-trip parse: for every ordered list of strings in
which no value contains the substring `"->"`, no value contains a newline,
and every value is unchanged by `trim`, parsing the constructed reply
`"1 -> {v1}\n2 -> {v2}\n...\nK -> {vK}"` with `parse_llm_response` yields
exactly the original list in order.  (The two extra conditions are forced by
`C3_counterexample`: a value with surrounding whitespace comes back trimmed,
and a value with an embedded newline is split across lines.) -/
theorem C3_round_trip_parse (vs : List Str)
    (h : ∀ v ∈ vs, ¬ (['-', '>'] <:+: v) ∧ '\n' ∉ v ∧ rustTrim v = v) :
    LlmUdf.parse_llm_response (buildNumberedReply vs) = vs := by
  unfold LlmUdf.parse_llm_response buildNumberedReply
  rw [show rustLines (joinLinesNl (numberLines 1 vs)) = numberLines 1 vs from
    rustLines_joinLines _ (numberLines_props vs h 1)]
  exact filterMap_numberLines vs h 1

/-- C3 counterexample.  With only the claim's no-`"->"` condition the round
trip fails at two concrete inputs: the single-value list `[" x"]` (leading
space comes back trimmed) and the single-value list `["a\nb"]` (embedded
newline splits the value). -/
theorem C3_counterexample :
    (¬ (['-', '>'] <:+: " x".data)
      ∧ LlmUdf.parse_llm_response (buildNumberedReply [" x".data]) ≠ [" x".data])
    ∧ (¬ (['-', '>'] <:+: "a\nb".data)
      ∧ LlmUdf.parse_llm_response (buildNumberedReply ["a\nb".data])
          ≠ ["a\nb".data]) := by
  exact ⟨⟨by decide, by decide⟩, ⟨by decide, by decide⟩⟩

/-- Witness for C3 at a concrete two-value list. -/
theorem C3_round_trip_parse_witness :
    LlmUdf.parse_llm_response
        (buildNumberedReply ["positive".data, "negative".data])
      = ["positive".data, "negative".data] := by
  apply C3_round_trip_parse
  intro v hv
  rcases List.mem_cons.mp hv with rfl | hv
  · exact ⟨by decide, by decide, by decide⟩
  · rcases List.mem_cons.mp hv with rfl | hv
    · exact ⟨by decide, by decide, by decide⟩
    · simp at hv

namespace LlmUtils

theorem genIters_le (is_eog : Int → Bool) (m : Int) :
    ∀ n : Int, genIters is_eog m n ≤ (m + 1 - n).toNat := by
  intro n
  induction n using genIters.induct is_eog m with
  | case1 n hle heog => rw [genIters, if_pos hle, if_pos heog]; omega
  | case2 n hle heog ih => rw [genIters, if_pos hle, if_neg heog]; omega
  | case3 n hle => rw [genIters, if_neg hle]; omega

end LlmUtils

/-- C10.  Local generation token budget: for a prompt of `p` tokens under
context budget `ctx_size`, the sampling loop runs at most
`max(0, ctx_size - 2*p + 1)` iterations (Nat subtraction makes
`(ctx_size + 1) - 2*p` exactly that), hence terminates even when no
end-of-generation token is ever sampled; and when `2*p > ctx_size` the loop
body never runs and the generated text is empty. -/
theorem C10_token_budget (is_eog : Int → Bool) (token_bytes : Int → List Nat)
    (ctx_size p : Nat) :
    LlmUtils.generate_iters is_eog ctx_size p ≤ (ctx_size + 1) - 2 * p
    ∧ (2 * p > ctx_size →
        LlmUtils.generate_text is_eog token_bytes ctx_size p = []) := by
  constructor
  · have h := LlmUtils.genIters_le is_eog ((ctx_size : Int) - p) p
    unfold LlmUtils.generate_iters
    omega
  · intro hgt
    unfold LlmUtils.generate_text
    rw [LlmUtils.genLoop, if_neg (by omega)]

/-- Witness for C10 with `ctx_size = 3`, `p = 2` (so `2*p > ctx_size`). -/
theorem C10_token_budget_witness :
    LlmUtils.generate_iters (fun _ => false) 3 2 ≤ (3 + 1) - 2 * 2
    ∧ LlmUtils.generate_text (fun _ => false) (fun _ => [65]) 3 2 = [] := by
  have h := C10_token_budget (fun _ => false) (fun _ => [65]) 3 2
  exact ⟨h.1, h.2 (by omega)⟩

/-- C7.  The sampling loop creates a fresh UTF-8 decoder for every token
(src/llm_utils.rs:115-119 places `UTF_8.new_decoder()` inside the loop), so
decoder state is NOT carried across tokens: when the two bytes `C3 A9` of
`é` (U+00E9) arrive split across two consecutive tokens, the loop produces
the replacement character U+FFFD, while the carried-state decoder the spec
describes produces `é` intact. -/
theorem C7_fresh_decoder_corrupts_split_codepoint :
    LlmUtils.generate_text (fun _ => false)
        (fun i => if i = 1 then [0xC3] else if i = 2 then [0xA9] else []) 3 1
      = [Char.ofNat 0xFFFD]
    ∧ LlmUtils.decodeCarried [[0xC3], [0xA9]] = [Char.ofNat 0xE9]
    ∧ Char.ofNat 0xE9 ≠ Char.ofNat 0xFFFD := by
  refine ⟨?_, by decide, by decide⟩
  unfold LlmUtils.generate_text
  simp +decide [LlmUtils.genLoop]

/-- C8.  Remote reply extraction: a body that is not valid JSON fails with a
backend error; valid JSON lacking a string at `message.content` yields the
success `"No response content"` (placeholder, not a failure); and when the
field holds a string, that string is returned as the RawReply. -/
theorem C8_remote_reply_extraction (parsed : Option OllamaUtils.Json) :
    (parsed = none →
      OllamaUtils.extract_reply parsed =
        .error "Failed to parse Ollama response".data)
    ∧ (∀ j, parsed = some j →
        (((j.index "message".data).index "content".data).asStr = none →
          OllamaUtils.extract_reply parsed = .ok "No response content".data)
        ∧ (∀ s, ((j.index "message".data).index "content".data).asStr = some s →
            OllamaUtils.extract_reply parsed = .ok s)) := by
  refine ⟨?_, ?_⟩
  · rintro rfl
    rfl
  · rintro j rfl
    refine ⟨?_, ?_⟩
    · intro hnone
      simp [OllamaUtils.extract_reply, hnone]
    · intro s hsome
      simp [OllamaUtils.extract_reply, hsome]

/-- Witness for C8: the parse-failure case, the missing-field case and the
present-field case at concrete JSON values. -/
theorem C8_remote_reply_extraction_witness :
    OllamaUtils.extract_reply none =
      .error "Failed to parse Ollama response".data
    ∧ OllamaUtils.extract_reply (some (.obj [])) =
        .ok "No response content".data
    ∧ OllamaUtils.extract_reply
        (some (.obj [("message".data,
          .obj [("content".data, .str "hi".data)])])) = .ok "hi".data := by
  refine ⟨(C8_remote_reply_extraction none).1 rfl, ?_, ?_⟩
  · exact (((C8_remote_reply_extraction (some (.obj []))).2 (.obj []) rfl).1) rfl
  · exact (((C8_remote_reply_extraction
      (some (.obj [("message".data, .obj [("content".data, .str "hi".data)])]))).2
      _ rfl).2) "hi".data rfl

/-! ## Behaviour examples: the modelled Rust string primitives and the UDF on
concrete inputs (these mirror hand-evaluations of the Rust source) -/

section BehaviourExamples

example : rustLines "a\nb".data = ["a".data, "b".data] := by decide
example : rustLines "a\r\nb\n".data = ["a".data, "b".data] := by decide
example : rustLines "a\r".data = ["a\r".data] := by decide
example : rustLines "".data = [] := by decide
example : rustLines "\n".data = ["".data] := by decide
example : splitOnArrow "1 -> a".data = ["1 ".data, " a".data] := by decide
example : splitOnArrow "-->".data = ["-".data, "".data] := by decide
example : splitOnArrow "->->".data = ["".data, "".data, "".data] := by decide
example : LlmUdf.parse_llm_response "1 -> positive\n2 -> negative\n3 -> neutral".data
    = ["positive".data, "negative".data, "neutral".data] := by decide
example : LlmUdf.parse_llm_response "x -> a -> b".data = ["a".data] := by decide
example : LlmUdf.parse_llm_response "chatter\n1 -> ok".data = ["ok".data] := by decide

example : natDecimal 507 = "507".data := by decide
example : debugVec ["a".data, "b\"c".data] = "[\"a\", \"b\\\"c\"]".data := by decide
example :
    LlmUdf.process_chunk (fun _ _ => .ok "1 -> a".data) "i".data
      ["x".data, "y".data]
    = .ok [LlmUdf.mismatch_message ["a".data] 2,
           LlmUdf.mismatch_message ["a".data] 2] := rfl
example : LlmUdf.mismatch_message ["a".data] 2
    = "Error: mismatched result count: 1 != 2. results: [\"a\"]".data := by decide
example : LlmUdf.parChunks 2 [1, 2, 3, 4, 5] = [[1, 2], [3, 4], [5]] := by
  simp [LlmUdf.parChunks]
example :
    LlmUdf.invoke_with_args (fun _ _ => .ok "1 -> A\n2 -> B\n3 -> C".data)
      (some "i".data) [some "a".data, none, some "c".data]
    = ["A".data, "B".data, "C".data] := by
  simp [LlmUdf.invoke_with_args, LlmUdf.parChunks, LlmUdf.chunk_size]
  decide
example :
    LlmUdf.invoke_with_args (fun _ _ => .error "boom".data)
      (some "i".data) [some "a".data, none]
    = ["Error processing chunk: boom".data, "Error processing chunk: boom".data] := by
  simp [LlmUdf.invoke_with_args, LlmUdf.parChunks, LlmUdf.chunk_size]
  decide

end BehaviourExamples
